import Mathlib

/-!
Verification of the supervision-tree library (go-capataz fork).

The child start/wait/notify machinery is translated from
`internal/c/start.go`; the tolerance accountant and the supervisor
start/stop/rollback procedures are not part of the provided sources
(only their tests are), so they are modelled from the specification and
validated against the exact event sequences asserted by the tests.
-/

namespace Capataz

/-- Go `error` values: the library only ever inspects them for nil-ness and
message; we model a non-nil error as a message-carrying value
(`errors.New`, `fmt.Errorf`). -/
inductive Err where
  | msg (s : String)
deriving DecidableEq, Repr

/-- The tag returned by `ChildSpec.GetTag`: worker or supervisor node kind. -/
inductive ChildTag where
  | worker
  | supervisor
deriving DecidableEq, Repr

/-- `c.ChildSpec` (the fields `DoStart` and `sendNotificationToSup` read
through the accessors `GetName`, `GetTag`, `DoesCapturePanic`); the Go
`Start` function itself is not a field here: its observable behaviour is
passed separately to the models below. -/
structure ChildSpec where
  name : String
  tag : ChildTag
  capturePanic : Bool
deriving DecidableEq, Repr

/-- The zero value of `ChildSpec` (Go `ChildSpec{}`). -/
def ChildSpec.zero : ChildSpec := { name := "", tag := .worker, capturePanic := false }

/-- `c.ChildNotification` as built by `sendNotificationToSup`:
`{name, tag, runtimeName, err}`; `err = none` models a nil error. -/
structure ChildNotification where
  name : String
  tag : ChildTag
  runtimeName : String
  err : Option Err
deriving DecidableEq, Repr

/-- Modelled from the spec: `ChildNotification.Unwrap` (called by
`waitTimeout` but defined outside the provided sources) returns the error
carried by the notification (`error: Option<Err>` in the data model). -/
def ChildNotification.Unwrap (n : ChildNotification) : Option Err := n.err

/-- `c.Shutdown`: the tagged shutdown policy (`indefinitelyT` / `timeoutT`
with a duration). Durations and instants are modelled as naturals. -/
inductive Shutdown where
  | indefinitely
  | timeout (d : Nat)
deriving DecidableEq, Repr

/-- The observable behaviour of the `terminateCh` channel from the point of
view of a single receive: a notification becomes available at time `t`, or
the channel is closed at time `t`, or nothing ever happens. -/
inductive ChanBehavior where
  | recvAt (t : Nat) (n : ChildNotification)
  | closedAt (t : Nat)
  | silent
deriving DecidableEq, Repr

/-- `errors.New("child shutdown timeout")` from `waitTimeout`. -/
def shutdownTimeoutErr : Err := .msg "child shutdown timeout"

/-- `waitTimeout` from `internal/c/start.go`: the function returned for a
`Child`'s `wait` capability.  The result is `none` when the call never
returns (blocking receive that is never served), `some none` when it
returns a nil error, and `some (some e)` when it returns error `e`.
For the `timeoutT` tag the `select` races the receive against
`time.After(d)`: an event at time `t ≤ d` wins over the timer. -/
def waitTimeoutRun (ch : ChanBehavior) : Shutdown → Option (Option Err)
  | .indefinitely =>
    match ch with
    | .recvAt _ n => some n.Unwrap
    | .closedAt _ => some none
    | .silent => none
  | .timeout d =>
    match ch with
    | .recvAt t n => if t ≤ d then some n.Unwrap else some (some shutdownTimeoutErr)
    | .closedAt t => if t ≤ d then some none else some (some shutdownTimeoutErr)
    | .silent => some (some shutdownTimeoutErr)

/-- The `ChildNotification` record built by `sendNotificationToSup`:
`{name: chSpec.GetName(), tag: chSpec.GetTag(), runtimeName, err}`. -/
def mkNotification (chSpec : ChildSpec) (chRuntimeName : String) (err : Option Err) :
    ChildNotification :=
  { name := chSpec.name, tag := chSpec.tag, runtimeName := chRuntimeName, err := err }

/-- The two possible consumers of the `select` in `sendNotificationToSup`:
the supervision loop reading `supNotifyCh`, or the terminate-side reader of
`terminateCh`. -/
inductive Consumer where
  | supLoop
  | termWait
deriving DecidableEq, Repr

/-- The non-prioritised `select` in `sendNotificationToSup`: whichever
consumer is ready (`ready`) receives the record; the other receives
nothing. -/
def selectDeliver (n : ChildNotification) (ready : Consumer) : Consumer → Option ChildNotification :=
  fun c => if c = ready then some n else none

/-- A Go panic value: either already an `error`, or some other value whose
formatting is a string (`fmt.Errorf("panic error: %v", panicVal)`). -/
inductive PanicVal where
  | errVal (e : Err)
  | otherVal (s : String)
deriving DecidableEq, Repr

/-- The wrapping performed by the recover branch of the child goroutine:
a panic value that is already an error is used as-is, any other value is
wrapped via `fmt.Errorf("panic error: %v", panicVal)`. -/
def wrapPanic : PanicVal → Err
  | .errVal e => e
  | .otherVal s => .msg ("panic error: " ++ s)

/-- How the user-supplied activity (`chSpec.Start`) ends after a successful
start: it returns a value (`ret none` models a nil return), or it panics. -/
inductive ActivityResult where
  | ret (e : Option Err)
  | panic (v : PanicVal)
deriving DecidableEq, Repr

/-- What the child goroutine of `DoStart` does on a terminal outcome:
either it posts one `ChildNotification` (via `sendNotificationToSup`), or
the panic propagates and aborts the process. -/
inductive GoroutineOutcome where
  | posted (n : ChildNotification)
  | propagatedPanic (v : PanicVal)
deriving DecidableEq, Repr

/-- The terminal behaviour of the goroutine spawned by `DoStart`: on a
normal return `err` the notification `mkNotification spec rt err` is sent;
on a panic, if `DoesCapturePanic()` the recover branch wraps the panic
value and sends it as the notification error, otherwise the recover branch
is not executed and the panic propagates. -/
def childGoroutineOutcome (chSpec : ChildSpec) (chRuntimeName : String) :
    ActivityResult → GoroutineOutcome
  | .ret e => .posted (mkNotification chSpec chRuntimeName e)
  | .panic v =>
    if chSpec.capturePanic then
      .posted (mkNotification chSpec chRuntimeName (some (wrapPanic v)))
    else
      .propagatedPanic v

/-- The list of notifications posted for a given terminal outcome:
one when a notification is sent, none when the panic propagates. -/
def notificationsPosted (chSpec : ChildSpec) (chRuntimeName : String) (r : ActivityResult) :
    List ChildNotification :=
  match childGoroutineOutcome chSpec chRuntimeName r with
  | .posted n => [n]
  | .propagatedPanic _ => []

/-- `c.Child`: the handle returned by `DoStart` (the `createdAt`, `cancel`
and `wait` capabilities carry no data relevant to the verified claims). -/
structure Child where
  runtimeName : String
  spec : ChildSpec
deriving DecidableEq, Repr

/-- The zero value of `Child` (Go `Child{}`, the empty handle). -/
def Child.zero : Child := { runtimeName := "", spec := ChildSpec.zero }

/-- Whether, and with which argument, the activity invokes the
`notifyStart` callback handed to it by `DoStart`. -/
inductive CallbackInvocation where
  | called (e : Option Err)
  | notCalled
deriving DecidableEq, Repr

/-- `ChildSpec.DoStart` from `internal/c/start.go`, as a function of the
callback behaviour of the spawned activity.  `DoStart` blocks on
`err := <-startCh`; the callback writes `e` to `startCh` when invoked with
a non-nil `e` and then closes it, and just closes it when invoked with
nil (a receive from the closed channel yields the nil zero value).  When
the callback is never invoked, `startCh` is neither written nor closed, so
`DoStart` never returns: the result is `none`. -/
def doStart (chSpec : ChildSpec) (supName : String) (cb : CallbackInvocation) :
    Option (Child × Option Err) :=
  let chRuntimeName := String.intercalate "/" [supName, chSpec.name]
  match cb with
  | .called (some e) => some (Child.zero, some e)
  | .called none => some ({ runtimeName := chRuntimeName, spec := chSpec }, none)
  | .notCalled => none

/-- Modelled from the spec: the tolerance accountant state (the accountant
itself is not among the provided sources; only its tests are):
`window: duration`, `max_failures: u32`, `instants: deque<time>`. -/
structure FailureWindow where
  maxFailures : Nat
  window : Nat
  instants : List Nat
deriving DecidableEq, Repr

/-- Modelled from the spec: on each recorded failure, drop all instants
older than `now - window`, push `now`, then admit the restart iff
`len(instants) ≤ max_failures`. -/
def recordFailure (fw : FailureWindow) (now : Nat) : FailureWindow × Bool :=
  let kept := fw.instants.filter (fun t => decide (now - fw.window ≤ t))
  let instants := kept ++ [now]
  ({ fw with instants := instants }, decide (instants.length ≤ fw.maxFailures))

/-- Record a sequence of failure instants, collecting the admit/reject
decision of each. -/
def processFailures (fw : FailureWindow) : List Nat → FailureWindow × List Bool
  | [] => (fw, [])
  | t :: ts =>
    let step := recordFailure fw t
    let rest := processFailures step.1 ts
    (rest.1, step.2 :: rest.2)

/-- Lifecycle events emitted by the event emitter, named after the
assertions of the supervisor tests (`WorkerStarted`, `SupervisorStarted`,
`WorkerTerminated`/`WorkerStopped`, `SupervisorTerminated`,
`WorkerStartFailed`, `SupervisorStartFailed`), each carrying the runtime
name of the node. -/
inductive Event where
  | workerStarted (rt : String)
  | supervisorStarted (rt : String)
  | workerTerminated (rt : String)
  | supervisorTerminated (rt : String)
  | workerStartFailed (rt : String)
  | supervisorStartFailed (rt : String)
deriving DecidableEq, Repr

mutual
/-- Modelled from the spec: a supervision tree node (the supervisor
runtime is not among the provided sources; only its tests are).  A worker
carries whether its start function succeeds; a supervisor carries its
children in start order (a `RightToLeft` supervisor lists its declared
children reversed, per the spec's start procedure). -/
inductive SupTree where
  | worker (name : String) (startOk : Bool)
  | sup (name : String) (children : SupForest)
/-- Modelled from the spec: the ordered child list of a supervisor. -/
inductive SupForest where
  | nil
  | cons (c : SupTree) (cs : SupForest)
end

/-- Build a child forest from a list in start order. -/
def SupForest.ofList : List SupTree → SupForest
  | [] => .nil
  | c :: cs => .cons c (SupForest.ofList cs)

/-- Modelled from the spec: the runtime name of a node, the `/`-joined
path from the root (the root itself has an empty parent path). -/
def rtName (parent : String) (n : String) : String :=
  if parent = "" then n else parent ++ "/" ++ n

mutual
/-- Modelled from the spec: the event sequence of terminating a running
node — children in reverse start order, each recursively, then the
node's own terminated event. -/
def stopEvents (p : String) : SupTree → List Event
  | .worker n _ => [.workerTerminated (rtName p n)]
  | .sup n cs => stopForest (rtName p n) cs ++ [.supervisorTerminated (rtName p n)]
/-- Modelled from the spec: terminate a forest of running children in
reverse start order. -/
def stopForest (p : String) : SupForest → List Event
  | .nil => []
  | .cons c cs => stopForest p cs ++ stopEvents p c
end

mutual
/-- Modelled from the spec: the start procedure of a node, returning the
emitted events and whether the node reached `Running`.  A supervisor
starts its children in order; only after every child is running does it
emit its own started event; if a child fails, previously started children
are rolled back and the supervisor emits `start_failed`. -/
def startAttempt (p : String) : SupTree → List Event × Bool
  | .worker n ok =>
    if ok then ([.workerStarted (rtName p n)], true)
    else ([.workerStartFailed (rtName p n)], false)
  | .sup n cs =>
    match startForest (rtName p n) cs with
    | (evs, true) => (evs ++ [.supervisorStarted (rtName p n)], true)
    | (evs, false) => (evs ++ [.supervisorStartFailed (rtName p n)], false)
/-- Modelled from the spec: start a forest of children serially, in
order; on a failure, already-started earlier siblings are terminated in
reverse start order and no later sibling is attempted. -/
def startForest (p : String) : SupForest → List Event × Bool
  | .nil => ([], true)
  | .cons c cs =>
    match startAttempt p c with
    | (evs, false) => (evs, false)
    | (evs, true) =>
      match startForest p cs with
      | (evs2, true) => (evs ++ evs2, true)
      | (evs2, false) => (evs ++ evs2 ++ stopEvents p c, false)
end

mutual
/-- All workers in the tree start successfully. -/
def SupTree.allOk : SupTree → Bool
  | .worker _ ok => ok
  | .sup _ cs => cs.allOk
/-- All workers in the forest start successfully. -/
def SupForest.allOk : SupForest → Bool
  | .nil => true
  | .cons c cs => c.allOk && cs.allOk
end

/-- The runtime names of worker-started events, in emission order. -/
def startedWorkers (es : List Event) : List String :=
  es.filterMap fun e =>
    match e with
    | .workerStarted rt => some rt
    | _ => none

/-- The runtime names of worker-terminated events, in emission order. -/
def terminatedWorkers (es : List Event) : List String :=
  es.filterMap fun e =>
    match e with
    | .workerTerminated rt => some rt
    | _ => none

/-- The runtime name carried by an event. -/
def eventName : Event → String
  | .workerStarted rt => rt
  | .supervisorStarted rt => rt
  | .workerTerminated rt => rt
  | .supervisorTerminated rt => rt
  | .workerStartFailed rt => rt
  | .supervisorStartFailed rt => rt

/-- The tree of the nested-supervisors test: `root` over `branch0{child0,
child1}` and `branch1{child2, child3}`, all starting successfully. -/
def nestedTree : SupTree :=
  .sup "root" (.ofList
    [.sup "branch0" (.ofList [.worker "child0" true, .worker "child1" true]),
     .sup "branch1" (.ofList [.worker "child2" true, .worker "child3" true])])

/-- The tree of the `RightToLeft` test: the declared children `child0`,
`child1`, `child2` listed in their reversed start order. -/
def rtlTree : SupTree :=
  .sup "root" (.ofList
    [.worker "child2" true, .worker "child1" true, .worker "child0" true])

/-- The tree of the failed-start test: `child3` of `branch1` fails to
start. -/
def failTree : SupTree :=
  .sup "root" (.ofList
    [.sup "branch0" (.ofList [.worker "child0" true, .worker "child1" true]),
     .sup "branch1" (.ofList
       [.worker "child2" true, .worker "child3" false, .worker "child4" true])])

/-- C1: `DoStart` blocks the caller until the activity invokes the
`notifyStart` callback: invoked with no error, `DoStart` returns the
`Child` handle and a nil error; invoked with a non-nil error `e`, it
returns the empty handle and exactly `e`; while the callback has not been
invoked no result is produced. -/
theorem doStart_start_handshake (chSpec : ChildSpec) (supName : String) (e : Err) :
    doStart chSpec supName (.called none) =
      some ({ runtimeName := String.intercalate "/" [supName, chSpec.name], spec := chSpec }, none)
  ∧ doStart chSpec supName (.called (some e)) = some (Child.zero, some e)
  ∧ doStart chSpec supName .notCalled = none :=
  ⟨rfl, rfl, rfl⟩

/-- C2: when the activity returns (value "boom") without ever invoking the
`notifyStart` callback, `startCh` is never written nor closed, so `DoStart`
never returns (modelled as `none`): the return value does not become the
start error; it is only posted as the terminal `ChildNotification`. -/
theorem doStart_unnotified_return_blocks :
    doStart { name := "worker1", tag := .worker, capturePanic := false } "root" .notCalled = none
  ∧ childGoroutineOutcome { name := "worker1", tag := .worker, capturePanic := false }
      "root/worker1" (.ret (some (.msg "boom")))
      = .posted { name := "worker1", tag := .worker, runtimeName := "root/worker1",
                  err := some (.msg "boom") } :=
  ⟨rfl, rfl⟩

/-- C6: `wait` under `Timeout(d)`: a terminal notification arriving within
`d` yields the error it carries; if nothing arrives within `d` (silence,
or any event only after the deadline) the result is the
`child shutdown timeout` error — the activity is declared leaked. -/
theorem waitTimeout_deadline (d t : Nat) (n : ChildNotification) :
    (t ≤ d → waitTimeoutRun (.recvAt t n) (.timeout d) = some n.err)
  ∧ (d < t → waitTimeoutRun (.recvAt t n) (.timeout d) = some (some shutdownTimeoutErr))
  ∧ waitTimeoutRun .silent (.timeout d) = some (some shutdownTimeoutErr)
  ∧ (d < t → waitTimeoutRun (.closedAt t) (.timeout d) = some (some shutdownTimeoutErr)) := by
  refine ⟨fun h => ?_, fun h => ?_, rfl, fun h => ?_⟩
  · simp [waitTimeoutRun, ChildNotification.Unwrap, h]
  · simp [waitTimeoutRun, Nat.not_le.mpr h]
  · simp [waitTimeoutRun, Nat.not_le.mpr h]

/-- C6 witness: concrete instances of the deadline behaviour. -/
theorem waitTimeout_deadline_witness :
    waitTimeoutRun
        (.recvAt 3 { name := "a", tag := .worker, runtimeName := "root/a", err := some (.msg "x") })
        (.timeout 5)
      = some (some (.msg "x"))
  ∧ waitTimeoutRun
        (.recvAt 7 { name := "a", tag := .worker, runtimeName := "root/a", err := some (.msg "x") })
        (.timeout 5)
      = some (some shutdownTimeoutErr)
  ∧ waitTimeoutRun (.closedAt 7) (.timeout 5) = some (some shutdownTimeoutErr) :=
  ⟨(waitTimeout_deadline 5 3
      { name := "a", tag := .worker, runtimeName := "root/a", err := some (.msg "x") }).1
      (by decide),
   (waitTimeout_deadline 5 7
      { name := "a", tag := .worker, runtimeName := "root/a", err := some (.msg "x") }).2.1
      (by decide),
   (waitTimeout_deadline 5 7
      { name := "a", tag := .worker, runtimeName := "root/a", err := some (.msg "x") }).2.2.2
      (by decide)⟩

/-- C7: with `capture_panics` enabled, a panic after a successful start is
recovered and becomes the error of the posted terminal notification (an
error panic value as-is, any other value wrapped via
`fmt.Errorf("panic error: %v", v)`); with capture disabled the recover
branch is skipped and the panic propagates. -/
theorem childPanic_capture (chSpec : ChildSpec) (rt : String) (e : Err) (s : String) :
    (chSpec.capturePanic = true →
        childGoroutineOutcome chSpec rt (.panic (.errVal e))
          = .posted (mkNotification chSpec rt (some e))
      ∧ childGoroutineOutcome chSpec rt (.panic (.otherVal s))
          = .posted (mkNotification chSpec rt (some (.msg ("panic error: " ++ s)))))
  ∧ (chSpec.capturePanic = false →
      ∀ v, childGoroutineOutcome chSpec rt (.panic v) = .propagatedPanic v) := by
  constructor
  · intro h
    exact ⟨by simp [childGoroutineOutcome, h, wrapPanic],
           by simp [childGoroutineOutcome, h, wrapPanic]⟩
  · intro h v
    simp [childGoroutineOutcome, h]

/-- C7 witness: a non-error panic value under capture is posted wrapped;
without capture the same panic propagates. -/
theorem childPanic_capture_witness :
    childGoroutineOutcome { name := "w", tag := .worker, capturePanic := true } "root/w"
        (.panic (.otherVal "boom"))
      = .posted { name := "w", tag := .worker, runtimeName := "root/w",
                  err := some (.msg ("panic error: " ++ "boom")) }
  ∧ childGoroutineOutcome { name := "w", tag := .worker, capturePanic := false } "root/w"
        (.panic (.otherVal "boom"))
      = .propagatedPanic (.otherVal "boom") :=
  ⟨((childPanic_capture { name := "w", tag := .worker, capturePanic := true } "root/w"
      (.msg "z") "boom").1 rfl).2,
   (childPanic_capture { name := "w", tag := .worker, capturePanic := false } "root/w"
      (.msg "z") "boom").2 rfl (.otherVal "boom")⟩

/-- C8: any successful `DoStart(supName, _)` on a spec named `n` yields a
handle whose runtime name is `supName ++ "/" ++ n` (the `strings.Join`),
hence any two successful starts of the same spec under the same supervisor
(in particular a restart) yield the identical runtime name. -/
theorem doStart_runtimeName (supName : String) (chSpec : ChildSpec) :
    (∀ cb child, doStart chSpec supName cb = some (child, none) →
        child.runtimeName = supName ++ "/" ++ chSpec.name)
  ∧ (∀ cb1 cb2 child1 child2,
        doStart chSpec supName cb1 = some (child1, none) →
        doStart chSpec supName cb2 = some (child2, none) →
        child1.runtimeName = child2.runtimeName) := by
  have key : ∀ cb child, doStart chSpec supName cb = some (child, none) →
      child.runtimeName = supName ++ "/" ++ chSpec.name := by
    intro cb child h
    cases cb with
    | notCalled => simp [doStart] at h
    | called e =>
      cases e with
      | some e => simp [doStart] at h
      | none =>
        simp only [doStart, Option.some.injEq, Prod.mk.injEq] at h
        rw [← h.1]
        simp [String.intercalate, String.intercalate.go]
  exact ⟨key, fun cb1 cb2 c1 c2 h1 h2 => (key cb1 c1 h1).trans (key cb2 c2 h2).symm⟩

/-- C8 witness: the concrete start of spec `child1` under supervisor
`root` produces the runtime name `root/child1`. -/
theorem doStart_runtimeName_witness :
    ({ runtimeName := "root/child1",
       spec := { name := "child1", tag := .worker, capturePanic := false } } : Child).runtimeName
      = "root" ++ "/" ++ "child1" :=
  (doStart_runtimeName "root" { name := "child1", tag := .worker, capturePanic := false }).1
    (.called none)
    { runtimeName := "root/child1",
      spec := { name := "child1", tag := .worker, capturePanic := false } }
    rfl

/-- C9: each terminal outcome (normal return, error return, captured
panic) posts exactly one notification whose fields are the spec name, the
spec tag, the runtime name, and the terminal error (nil on clean return);
the non-prioritised select offers the same record to both consumers and
exactly one of them receives it. -/
theorem notification_record_and_delivery (chSpec : ChildSpec) (rt : String) (e : Option Err)
    (v : PanicVal) :
    notificationsPosted chSpec rt (.ret e)
      = [{ name := chSpec.name, tag := chSpec.tag, runtimeName := rt, err := e }]
  ∧ (chSpec.capturePanic = true →
      notificationsPosted chSpec rt (.panic v)
        = [{ name := chSpec.name, tag := chSpec.tag, runtimeName := rt,
             err := some (wrapPanic v) }])
  ∧ (∀ (n : ChildNotification) (ready : Consumer),
        (selectDeliver n ready .supLoop = some n ∧ selectDeliver n ready .termWait = none)
      ∨ (selectDeliver n ready .supLoop = none ∧ selectDeliver n ready .termWait = some n)) := by
  refine ⟨rfl, fun h => ?_, fun n ready => ?_⟩
  · simp [notificationsPosted, childGoroutineOutcome, h, mkNotification]
  · cases ready
    · exact Or.inl ⟨by simp [selectDeliver], by simp [selectDeliver]⟩
    · exact Or.inr ⟨by simp [selectDeliver], by simp [selectDeliver]⟩

/-- C9 witness: a captured panic of a concrete spec posts exactly one
notification carrying the wrapped panic error. -/
theorem notification_record_and_delivery_witness :
    notificationsPosted { name := "w", tag := .worker, capturePanic := true } "root/w"
        (.panic (.errVal (.msg "bad")))
      = [{ name := "w", tag := .worker, runtimeName := "root/w",
           err := some (wrapPanic (.errVal (.msg "bad"))) }] :=
  (notification_record_and_delivery { name := "w", tag := .worker, capturePanic := true }
    "root/w" none (.errVal (.msg "bad"))).2.1 rfl

/-- C10: a terminate channel closed without delivering a notification is
treated as clean termination: `wait` returns nil under `Indefinite`, and
under `Timeout(d)` whenever the close happens within the deadline. -/
theorem waitClosed_returns_nil (t d : Nat) :
    waitTimeoutRun (.closedAt t) .indefinitely = some none
  ∧ (t ≤ d → waitTimeoutRun (.closedAt t) (.timeout d) = some none) :=
  ⟨rfl, fun h => by simp [waitTimeoutRun, h]⟩

/-- C10 witness: a close at time 1 under `Timeout(5)` returns nil. -/
theorem waitClosed_returns_nil_witness :
    waitTimeoutRun (.closedAt 1) .indefinitely = some none
  ∧ waitTimeoutRun (.closedAt 1) (.timeout 5) = some none :=
  ⟨(waitClosed_returns_nil 1 5).1, (waitClosed_returns_nil 1 5).2 (by decide)⟩

/-- When no recorded instant is old enough to be dropped, recording a
failure just appends `now` and admits iff the new length is within the
tolerated maximum. -/
theorem recordFailure_keep_all (fw : FailureWindow) (now : Nat)
    (h : ∀ s ∈ fw.instants, now - fw.window ≤ s) :
    recordFailure fw now =
      ({ fw with instants := fw.instants ++ [now] },
       decide (fw.instants.length + 1 ≤ fw.maxFailures)) := by
  unfold recordFailure
  rw [List.filter_eq_self.mpr (fun a ha => decide_eq_true (h a ha))]
  simp

/-- Processing failures that all fall inside one window of width `W`: with
`cur` instants already recorded (none droppable), the decisions are
`true` until the recorded count exceeds the maximum, then `false`. -/
theorem processFailures_window_aux (W lo N : Nat) :
    ∀ (ts : List Nat) (cur : List Nat),
      (∀ s ∈ cur, lo ≤ s) →
      (∀ t ∈ ts, lo ≤ t ∧ t ≤ lo + W) →
      cur.length + ts.length = N + 1 →
      cur.length ≤ N →
      (processFailures ⟨N, W, cur⟩ ts).2
        = List.replicate (N - cur.length) true ++ [false] := by
  intro ts
  induction ts with
  | nil =>
    intro cur hcur hts hsum hle
    simp at hsum
    omega
  | cons t ts ih =>
    intro cur hcur hts hsum hle
    simp only [List.length_cons] at hsum
    have ht := hts t (by simp)
    have hkeep : ∀ s ∈ (⟨N, W, cur⟩ : FailureWindow).instants,
        t - (⟨N, W, cur⟩ : FailureWindow).window ≤ s := fun s hs =>
      le_trans (by omega : t - W ≤ lo) (hcur s hs)
    have hstep := recordFailure_keep_all ⟨N, W, cur⟩ t hkeep
    simp only [processFailures, hstep]
    rcases Nat.lt_or_ge cur.length N with hlt | hge
    · have hrest := ih (cur ++ [t])
        (by intro s hs; rcases List.mem_append.mp hs with h1 | h1
            · exact hcur s h1
            · simp at h1; omega)
        (fun u hu => hts u (by simp [hu]))
        (by simp; omega)
        (by simp; omega)
      simp only [hrest]
      have hdec : decide (cur.length + 1 ≤ N) = true := by simp; omega
      simp [hdec]
      have : N - cur.length = (N - (cur.length + 1)) + 1 := by omega
      rw [this, List.replicate_succ]
      simp
    · have heq : cur.length = N := le_antisymm hle hge
      have hts0 : ts = [] := by
        have : ts.length = 0 := by omega
        exact List.length_eq_zero.mp this
      subst hts0
      simp [processFailures, heq]

/-- C3: for tolerance `(N, W)`, any `N + 1` failures falling inside one
window of width `W` produce `N` admitted restarts followed by an
escalation, and a failure recorded after every retained instant has aged
out of the window is admitted again (for `N ≥ 1`); concretely, tolerance
`(2, 10)` admits two failures and escalates on the third, and tolerance
`(1, 100)` admits a second failure 300 ticks after the first. -/
theorem tolerance_sliding_window (N W lo : Nat) (ts : List Nat)
    (hin : ∀ t ∈ ts, lo ≤ t ∧ t ≤ lo + W)
    (hlen : ts.length = N + 1) :
    ((processFailures ⟨N, W, []⟩ ts).2 = List.replicate N true ++ [false]
  ∧ ∀ (fw : FailureWindow) (now : Nat),
      (∀ s ∈ fw.instants, s < now - fw.window) → 1 ≤ fw.maxFailures →
      (recordFailure fw now).2 = true)
  ∧ (processFailures ⟨2, 10, []⟩ [0, 1, 2]).2 = [true, true, false]
  ∧ (processFailures ⟨1, 100, []⟩ [0, 300]).2 = [true, true] := by
  refine ⟨⟨?_, ?_⟩, by decide, by decide⟩
  · have := processFailures_window_aux W lo N ts []
      (by intro s hs; simp at hs) hin (by simpa using hlen) (by simp)
    simpa using this
  · intro fw now hold hmax
    unfold recordFailure
    have hnil : fw.instants.filter (fun t => decide (now - fw.window ≤ t)) = [] := by
      apply List.filter_eq_nil_iff.mpr
      intro a ha
      simpa using Nat.not_le.mpr (hold a ha)
    simp only [hnil]
    simp [hmax]

/-- C3 witness: three failures at instants 0, 1, 2 under tolerance
`(2, 10)` give two restarts then an escalation; after the retained
instants age out, a failure is admitted again. -/
theorem tolerance_sliding_window_witness :
    ((processFailures ⟨2, 10, []⟩ [0, 1, 2]).2 = List.replicate 2 true ++ [false])
  ∧ (recordFailure ⟨1, 5, [0, 1]⟩ 100).2 = true :=
  ⟨((tolerance_sliding_window 2 10 0 [0, 1, 2] (by decide) rfl).1).1,
   ((tolerance_sliding_window 2 10 0 [0, 1, 2] (by decide) rfl).1).2
     ⟨1, 5, [0, 1]⟩ 100 (by decide) (by decide)⟩

mutual
/-- A tree whose workers all start successfully reaches `Running`. -/
theorem startAttempt_ok (p : String) : ∀ (t : SupTree), t.allOk = true →
    (startAttempt p t).2 = true
  | .worker n ok, h => by
    simp [SupTree.allOk] at h
    simp [startAttempt, h]
  | .sup n cs, h => by
    have hf := startForest_ok (rtName p n) cs (by simpa [SupTree.allOk] using h)
    simp only [startAttempt]
    rcases hsf : startForest (rtName p n) cs with ⟨evs, b⟩
    rw [hsf] at hf
    simp at hf
    subst hf
    simp [hsf]
/-- A forest whose workers all start successfully reaches `Running`. -/
theorem startForest_ok (p : String) : ∀ (cs : SupForest), cs.allOk = true →
    (startForest p cs).2 = true
  | .nil, _ => rfl
  | .cons c cs, h => by
    simp [SupForest.allOk] at h
    have hc := startAttempt_ok p c h.1
    have hcs := startForest_ok p cs h.2
    simp only [startForest]
    rcases h1 : startAttempt p c with ⟨evs, b⟩
    rw [h1] at hc
    simp at hc
    subst hc
    rcases h2 : startForest p cs with ⟨evs2, b2⟩
    rw [h2] at hcs
    simp at hcs
    subst hcs
    simp [h1, h2]
end

mutual
/-- The workers of a fully-started tree are terminated in the exact
reverse of the order they were started in. -/
theorem stop_rev_tree (p : String) : ∀ (t : SupTree), t.allOk = true →
    terminatedWorkers (stopEvents p t) = (startedWorkers (startAttempt p t).1).reverse
  | .worker n ok, h => by
    simp [SupTree.allOk] at h
    simp [stopEvents, startAttempt, h, startedWorkers, terminatedWorkers]
  | .sup n cs, h => by
    have hok : cs.allOk = true := by simpa [SupTree.allOk] using h
    have hf := stop_rev_forest (rtName p n) cs hok
    have hb := startForest_ok (rtName p n) cs hok
    simp only [stopEvents, startAttempt]
    rcases hsf : startForest (rtName p n) cs with ⟨evs, b⟩
    rw [hsf] at hf hb
    simp at hb
    subst hb
    simp only at hf
    simp [terminatedWorkers, startedWorkers, List.filterMap_append] at hf ⊢
    exact hf
/-- The workers of a fully-started forest are terminated in the exact
reverse of the order they were started in. -/
theorem stop_rev_forest (p : String) : ∀ (cs : SupForest), cs.allOk = true →
    terminatedWorkers (stopForest p cs) = (startedWorkers (startForest p cs).1).reverse
  | .nil, _ => rfl
  | .cons c cs, h => by
    simp [SupForest.allOk] at h
    have hc := stop_rev_tree p c h.1
    have hcs := stop_rev_forest p cs h.2
    have hbc := startAttempt_ok p c h.1
    have hbcs := startForest_ok p cs h.2
    simp only [stopForest, startForest]
    rcases h1 : startAttempt p c with ⟨evs, b⟩
    rw [h1] at hc hbc
    simp at hbc
    subst hbc
    rcases h2 : startForest p cs with ⟨evs2, b2⟩
    rw [h2] at hcs hbcs
    simp at hbcs
    subst hbcs
    simp only at hc hcs
    simp [terminatedWorkers, startedWorkers, List.filterMap_append] at hc hcs ⊢
    rw [hc, hcs]
end

/-- Starting a forest of children (given as a start-ordered list) that all
start successfully emits their start sequences in order. -/
theorem startForest_ofList_ok (p : String) :
    ∀ (l : List SupTree), (∀ c ∈ l, (startAttempt p c).2 = true) →
    startForest p (SupForest.ofList l) = ((l.map fun c => (startAttempt p c).1).flatten, true) := by
  intro l
  induction l with
  | nil => intro _; simp [SupForest.ofList, startForest]
  | cons c l ih =>
    intro h
    have hc := h c (by simp)
    have hrest := ih (fun d hd => h d (by simp [hd]))
    simp only [SupForest.ofList, startForest]
    rcases h1 : startAttempt p c with ⟨evs, b⟩
    rw [h1] at hc
    simp at hc
    subst hc
    rw [hrest]
    simp [h1]

/-- Stopping a forest of children (given as a start-ordered list) emits
their stop sequences in reverse start order. -/
theorem stopForest_ofList (p : String) :
    ∀ (l : List SupTree),
    stopForest p (SupForest.ofList l) = (l.reverse.map (stopEvents p)).flatten := by
  intro l
  induction l with
  | nil => simp [SupForest.ofList, stopForest]
  | cons c l ih =>
    simp [SupForest.ofList, stopForest, ih, List.reverse_cons, List.map_append,
      List.flatten_append]

/-- A non-root runtime name strictly extends its parent path. -/
theorem rtName_length_gt (p n : String) (hp : p ≠ "") :
    p.length < (rtName p n).length := by
  simp [rtName, hp, String.length_append]
  have : ("/" : String).length = 1 := rfl
  omega

/-- A non-root runtime name is itself non-empty. -/
theorem rtName_ne_empty (p n : String) (hp : p ≠ "") : rtName p n ≠ "" := by
  intro h
  have := rtName_length_gt p n hp
  rw [h] at this
  simp at this

mutual
/-- Every event emitted while starting a subtree below a non-empty parent
path carries a runtime name strictly longer than that path. -/
theorem startAttempt_names_long (p : String) (hp : p ≠ "") :
    ∀ (t : SupTree), ∀ e ∈ (startAttempt p t).1, p.length < (eventName e).length
  | .worker n ok, e, he => by
    cases ok <;> simp [startAttempt] at he <;>
      simpa [eventName, he] using rtName_length_gt p n hp
  | .sup n cs, e, he => by
    have hq := rtName_ne_empty p n hp
    have hlt := rtName_length_gt p n hp
    have hf := startForest_names_long (rtName p n) hq cs
    rcases hsf : startForest (rtName p n) cs with ⟨evs, b⟩
    rw [hsf] at hf
    simp only at hf
    simp only [startAttempt, hsf] at he
    cases b <;> simp at he <;> rcases he with he | he
    · exact lt_trans hlt (hf e he)
    · simpa [eventName, he] using hlt
    · exact lt_trans hlt (hf e he)
    · simpa [eventName, he] using hlt
/-- Every event emitted while starting a forest below a non-empty parent
path carries a runtime name strictly longer than that path. -/
theorem startForest_names_long (p : String) (hp : p ≠ "") :
    ∀ (cs : SupForest), ∀ e ∈ (startForest p cs).1, p.length < (eventName e).length
  | .nil, e, he => by simp [startForest] at he
  | .cons c cs, e, he => by
    have hc := startAttempt_names_long p hp c
    have hcs := startForest_names_long p hp cs
    have hstop := stopEvents_names_long p hp c
    rcases h1 : startAttempt p c with ⟨evs, b⟩
    rw [h1] at hc
    simp only at hc
    rcases h2 : startForest p cs with ⟨evs2, b2⟩
    rw [h2] at hcs
    simp only at hcs
    simp only [startForest, h1, h2] at he
    cases b <;> cases b2 <;> simp at he
    · exact hc e he
    · exact hc e he
    · rcases he with he | he | he
      · exact hc e he
      · exact hcs e he
      · exact hstop e he
    · rcases he with he | he
      · exact hc e he
      · exact hcs e he
/-- Every event emitted while stopping a subtree below a non-empty parent
path carries a runtime name strictly longer than that path. -/
theorem stopEvents_names_long (p : String) (hp : p ≠ "") :
    ∀ (t : SupTree), ∀ e ∈ (stopEvents p t), p.length < (eventName e).length
  | .worker n _, e, he => by
    simp [stopEvents] at he
    simpa [eventName, he] using rtName_length_gt p n hp
  | .sup n cs, e, he => by
    have hq := rtName_ne_empty p n hp
    have hlt := rtName_length_gt p n hp
    have hf := stopForest_names_long (rtName p n) hq cs
    simp only [stopEvents] at he
    rcases List.mem_append.mp he with he | he
    · exact lt_trans hlt (hf e he)
    · simp at he
      simpa [eventName, he] using hlt
/-- Every event emitted while stopping a forest below a non-empty parent
path carries a runtime name strictly longer than that path. -/
theorem stopForest_names_long (p : String) (hp : p ≠ "") :
    ∀ (cs : SupForest), ∀ e ∈ (stopForest p cs), p.length < (eventName e).length
  | .nil, e, he => by simp [stopForest] at he
  | .cons c cs, e, he => by
    simp only [stopForest] at he
    rcases List.mem_append.mp he with he | he
    · exact stopForest_names_long p hp cs e he
    · exact stopEvents_names_long p hp c e he
end

/-- Starting a forest whose `k`-th child fails emits: the start sequences
of the earlier siblings, the failing child's events, and the stop
sequences of the earlier siblings in reverse start order; later siblings
are never attempted. -/
theorem startForest_rollback (q : String) :
    ∀ (pre : List SupTree) (ck : SupTree) (post : List SupTree),
      (∀ c ∈ pre, (startAttempt q c).2 = true) →
      (startAttempt q ck).2 = false →
      startForest q (SupForest.ofList (pre ++ ck :: post))
        = ((pre.map fun c => (startAttempt q c).1).flatten
            ++ (startAttempt q ck).1
            ++ (pre.reverse.map (stopEvents q)).flatten, false) := by
  intro pre
  induction pre with
  | nil =>
    intro ck post _ hck
    simp only [List.nil_append, SupForest.ofList, startForest]
    rcases h1 : startAttempt q ck with ⟨evs, b⟩
    rw [h1] at hck
    simp only at hck
    subst hck
    simp [h1]
  | cons c pre ih =>
    intro ck post hpre hck
    have hc := hpre c (by simp)
    have hrest := ih ck post (fun d hd => hpre d (by simp [hd])) hck
    simp only [List.cons_append, SupForest.ofList, startForest]
    rcases h1 : startAttempt q c with ⟨evs, b⟩
    rw [h1] at hc
    simp only at hc
    subst hc
    have hrest2 : startForest q (SupForest.ofList (pre.append (ck :: post)))
        = ((pre.map fun c => (startAttempt q c).1).flatten
            ++ (startAttempt q ck).1
            ++ (pre.reverse.map (stopEvents q)).flatten, false) := hrest
    rw [hrest2]
    simp [h1, List.reverse_cons, List.map_append, List.flatten_append]

/-- C4: for a supervisor with children in start order, the start sequence
is the children's start events in order followed by the supervisor's
started event, the stop sequence is the children's stop events in reverse
order followed by the supervisor's terminated event (recursively, for any
parent path), worker shutdown order is the exact reverse of worker start
order, and the model reproduces the nested-supervisors and `RightToLeft`
test event sequences exactly. -/
theorem supervision_order (p n : String) (l : List SupTree)
    (hok : ∀ c ∈ l, (startAttempt (rtName p n) c).2 = true) :
    (startAttempt p (.sup n (.ofList l))
      = ((l.map fun c => (startAttempt (rtName p n) c).1).flatten
          ++ [.supervisorStarted (rtName p n)], true))
  ∧ (stopEvents p (.sup n (.ofList l))
      = (l.reverse.map (stopEvents (rtName p n))).flatten
          ++ [.supervisorTerminated (rtName p n)])
  ∧ (∀ (q : String) (t : SupTree), t.allOk = true →
      terminatedWorkers (stopEvents q t) = (startedWorkers (startAttempt q t).1).reverse)
  ∧ ((startAttempt "" nestedTree).1 ++ stopEvents "" nestedTree =
      [.workerStarted "root/branch0/child0",
       .workerStarted "root/branch0/child1",
       .supervisorStarted "root/branch0",
       .workerStarted "root/branch1/child2",
       .workerStarted "root/branch1/child3",
       .supervisorStarted "root/branch1",
       .supervisorStarted "root",
       .workerTerminated "root/branch1/child3",
       .workerTerminated "root/branch1/child2",
       .supervisorTerminated "root/branch1",
       .workerTerminated "root/branch0/child1",
       .workerTerminated "root/branch0/child0",
       .supervisorTerminated "root/branch0",
       .supervisorTerminated "root"])
  ∧ ((startAttempt "" rtlTree).1 ++ stopEvents "" rtlTree =
      [.workerStarted "root/child2",
       .workerStarted "root/child1",
       .workerStarted "root/child0",
       .supervisorStarted "root",
       .workerTerminated "root/child0",
       .workerTerminated "root/child1",
       .workerTerminated "root/child2",
       .supervisorTerminated "root"]) := by
  refine ⟨?_, ?_, stop_rev_tree, by decide, by decide⟩
  · simp only [startAttempt]
    rw [startForest_ofList_ok (rtName p n) l hok]
  · simp only [stopEvents]
    rw [stopForest_ofList (rtName p n) l]

/-- C4 witness: the single-child tree starts as `worker, supervisor` and
stops as `worker, supervisor`; on the nested test tree the terminated
workers are exactly the reverse of the started workers. -/
theorem supervision_order_witness :
    startAttempt "" (.sup "root" (.ofList [.worker "one" true]))
      = ([.workerStarted "root/one", .supervisorStarted "root"], true)
  ∧ stopEvents "" (.sup "root" (.ofList [.worker "one" true]))
      = [.workerTerminated "root/one", .supervisorTerminated "root"]
  ∧ terminatedWorkers (stopEvents "" nestedTree)
      = (startedWorkers (startAttempt "" nestedTree).1).reverse :=
  ⟨(supervision_order "" "root" [.worker "one" true] (by decide)).1,
   (supervision_order "" "root" [.worker "one" true] (by decide)).2.1,
   (supervision_order "" "root" [.worker "one" true] (by decide)).2.2.1
     "" nestedTree (by decide)⟩

/-- C5: if child `Cₖ` of a supervisor fails to start while its earlier
siblings started, the emitted events are exactly the earlier siblings'
start sequences, the failing child's events, the earlier siblings' stop
sequences in reverse start order, and the supervisor's `start_failed` —
so no later sibling is ever started and the supervisor never emits
`started`; the model reproduces the failed-start test event sequence
exactly. -/
theorem start_failure_rollback (p n : String) (pre : List SupTree) (ck : SupTree)
    (post : List SupTree)
    (hpre : ∀ c ∈ pre, (startAttempt (rtName p n) c).2 = true)
    (hck : (startAttempt (rtName p n) ck).2 = false)
    (hq : rtName p n ≠ "") :
    (startAttempt p (.sup n (.ofList (pre ++ ck :: post)))
      = ((pre.map fun c => (startAttempt (rtName p n) c).1).flatten
          ++ (startAttempt (rtName p n) ck).1
          ++ (pre.reverse.map (stopEvents (rtName p n))).flatten
          ++ [.supervisorStartFailed (rtName p n)], false))
  ∧ Event.supervisorStarted (rtName p n)
      ∉ (startAttempt p (.sup n (.ofList (pre ++ ck :: post)))).1
  ∧ (startAttempt "" failTree
      = ([.workerStarted "root/branch0/child0",
          .workerStarted "root/branch0/child1",
          .supervisorStarted "root/branch0",
          .workerStarted "root/branch1/child2",
          .workerStartFailed "root/branch1/child3",
          .workerTerminated "root/branch1/child2",
          .supervisorStartFailed "root/branch1",
          .workerTerminated "root/branch0/child1",
          .workerTerminated "root/branch0/child0",
          .supervisorTerminated "root/branch0",
          .supervisorStartFailed "root"], false)) := by
  have hmain : startAttempt p (.sup n (.ofList (pre ++ ck :: post)))
      = ((pre.map fun c => (startAttempt (rtName p n) c).1).flatten
          ++ (startAttempt (rtName p n) ck).1
          ++ (pre.reverse.map (stopEvents (rtName p n))).flatten
          ++ [.supervisorStartFailed (rtName p n)], false) := by
    simp only [startAttempt]
    rw [startForest_rollback (rtName p n) pre ck post hpre hck]
  have hlen : ∀ e, e ∈ ((pre.map fun c => (startAttempt (rtName p n) c).1).flatten
      ++ (startAttempt (rtName p n) ck).1
      ++ (pre.reverse.map (stopEvents (rtName p n))).flatten) →
      (rtName p n).length < (eventName e).length := by
    intro e he
    rcases List.mem_append.mp he with he | he
    · rcases List.mem_append.mp he with he | he
      · rcases List.mem_flatten.mp he with ⟨l2, hl2, hel⟩
        rcases List.mem_map.mp hl2 with ⟨c, hc, rfl⟩
        exact startAttempt_names_long (rtName p n) hq c e hel
      · exact startAttempt_names_long (rtName p n) hq ck e he
    · rcases List.mem_flatten.mp he with ⟨l2, hl2, hel⟩
      rcases List.mem_map.mp hl2 with ⟨c, hc, rfl⟩
      exact stopEvents_names_long (rtName p n) hq c e hel
  refine ⟨hmain, ?_, by decide⟩
  rw [hmain]
  intro hmem
  rcases List.mem_append.mp hmem with hmem2 | hmem2
  · have hlt := hlen _ hmem2
    simp [eventName] at hlt
  · simp at hmem2

/-- C5 witness: the `branch1` subtree of the failed-start test — its
failing `child3` rolls back `child2`, `child4` is never attempted, and
`branch1` emits `start_failed`, never `started`. -/
theorem start_failure_rollback_witness :
    startAttempt "root" (.sup "branch1" (.ofList
        [.worker "child2" true, .worker "child3" false, .worker "child4" true]))
      = ([.workerStarted "root/branch1/child2",
          .workerStartFailed "root/branch1/child3",
          .workerTerminated "root/branch1/child2",
          .supervisorStartFailed "root/branch1"], false)
  ∧ Event.supervisorStarted "root/branch1"
      ∉ (startAttempt "root" (.sup "branch1" (.ofList
          [.worker "child2" true, .worker "child3" false, .worker "child4" true]))).1 :=
  ⟨(start_failure_rollback "root" "branch1" [.worker "child2" true] (.worker "child3" false)
      [.worker "child4" true] (by decide) (by decide) (by decide)).1,
   (start_failure_rollback "root" "branch1" [.worker "child2" true] (.worker "child3" false)
      [.worker "child4" true] (by decide) (by decide) (by decide)).2.1⟩

end Capataz
